import Mathlib

/-!
Verification development for the Nautilus image-toolkit extension
(`ImageToolkitExtension.py`).

The module shells out to the ImageMagick `magick` binary to convert an image
to PNG/JPEG or strip a white background, and reports the result through
desktop notifications scheduled on the GLib main loop.

Shallow embedding conventions:
* Python strings are `List Char`; concrete examples use `String.data`.
* The filesystem is a finite list of existing paths (`List (List Char)`);
  `os.path.exists p` is `p ∈ fs`.
* The library path helpers used by the code (`os.path.basename`, `dirname`,
  `splitext`, `join` — all POSIX) are modelled after their CPython
  `posixpath` implementations.
* The worker-thread body `ImageHelperCommand._runner` is modelled as a pure
  function from the launch result of the subprocess to a record of the
  notifications it schedules, the callbacks it posts to the UI loop, the
  callbacks it would invoke inline (none), and the exception, if any, that
  escapes the routine.
-/

/-- Model of `posixpath.basename`: the suffix of the path after the last
slash (`p[p.rfind('/') + 1:]`). -/
def pyBasename : List Char → List Char
  | [] => []
  | c :: cs => if c = '/' ∨ '/' ∈ cs then pyBasename cs else c :: cs

/-- Model of CPython `str.split("/")`: the list of slash-separated segments
(never empty; adjacent slashes give empty segments). -/
def splitSlash : List Char → List (List Char)
  | [] => [[]]
  | c :: cs =>
    match splitSlash cs with
    | [] => [[]]
    | g :: gs => if c = '/' then [] :: g :: gs else (c :: g) :: gs

/-- `ImageHelperCommand.get_file_name`: `self.file_path.split("/")[-1]`.
The split result is provably nonempty, so Python's `[-1]` is the last
element. -/
def lastSlashSegment (p : List Char) : List Char :=
  (splitSlash p).getLast?.getD []

/-- The prefix of the path up to and including the last slash
(`p[:p.rfind('/') + 1]`), the `head` value inside `posixpath.dirname`. -/
def dirSlashPart : List Char → List Char
  | [] => []
  | c :: cs => if c = '/' ∨ '/' ∈ cs then c :: dirSlashPart cs else []

/-- `str.rstrip("/")`: drop trailing slashes. -/
def rstripSlash (l : List Char) : List Char :=
  (l.reverse.dropWhile (fun c => c = '/')).reverse

/-- Model of `posixpath.dirname`: take the prefix up to the last slash and
strip its trailing slashes unless it consists solely of slashes. -/
def pyDirname (p : List Char) : List Char :=
  if dirSlashPart p ≠ [] ∧ ¬ (∀ c ∈ dirSlashPart p, c = '/') then
    rstripSlash (dirSlashPart p)
  else dirSlashPart p

/-- Model of `posixpath.join a b` for a single extra component: `b` if it is
absolute, otherwise `a ++ b` when `a` is empty or ends in a slash, otherwise
`a ++ "/" ++ b`. -/
def pyJoin (path b : List Char) : List Char :=
  if b.head? = some '/' then b
  else if path = [] ∨ path.getLast? = some '/' then path ++ b
  else path ++ '/' :: b

/-- Predicate used by the `splitext` model: is the character a dot. -/
def isDot (c : Char) : Bool := c = '.'

/-- Split a dot-headed extension off the end of a segment: returns
`(root, ext)` where `ext` starts at the last dot of the list ( `([l], "")`
when there is no dot). Helper for the `posixpath.splitext` model. -/
def splitLastDot : List Char → List Char × List Char
  | [] => ([], [])
  | c :: cs =>
    if c = '.' ∧ '.' ∉ cs then ([], c :: cs)
    else ((c :: (splitLastDot cs).1), (splitLastDot cs).2)

/-- `posixpath.splitext` restricted to a basename (no slashes): leading dots
belong to the root (so ".bashrc" has no extension); the extension starts at
the last dot of the remainder. -/
def splitextBase (b : List Char) : List Char × List Char :=
  ((b.takeWhile isDot) ++ (splitLastDot (b.dropWhile isDot)).1,
   (splitLastDot (b.dropWhile isDot)).2)

/-- Model of `posixpath.splitext` on a full path: the directory part is
untouched, the basename is split as in `splitextBase`. -/
def pySplitext (p : List Char) : List Char × List Char :=
  (dirSlashPart p ++ (splitextBase (pyBasename p)).1,
   (splitextBase (pyBasename p)).2)

/-- State of an `ImageHelperCommand` object: `__init__` sets `file_path`
(from `unquote(urlparse(file_uri).path)`; we take the resulting path
directly) and `notifier`.  `input_path` is referenced by the
`CalledProcessError` handler in `_runner` but is never assigned anywhere in
the class, so the attribute is absent (`none`) on every instance. -/
structure ImageHelperCommand where
  file_path : List Char
  input_path : Option (List Char) := none
deriving DecidableEq

/-- `ImageHelperCommand.__init__`: stores the file path; `input_path` is not
among the attributes it sets. -/
def ImageHelperCommand.init (file_path : List Char) : ImageHelperCommand :=
  { file_path := file_path, input_path := none }

/-- `ImageHelperCommand.get_file`: `os.path.basename(self.file_path)`. -/
def ImageHelperCommand.get_file (self : ImageHelperCommand) : List Char :=
  pyBasename self.file_path

/-- `ImageHelperCommand.get_file_directory`:
`os.path.dirname(self.file_path)`. -/
def ImageHelperCommand.get_file_directory (self : ImageHelperCommand) : List Char :=
  pyDirname self.file_path

/-- `ImageHelperCommand.get_name`:
`os.path.splitext(self.get_file())[0]`. -/
def ImageHelperCommand.get_name (self : ImageHelperCommand) : List Char :=
  (pySplitext self.get_file).1

/-- `ImageHelperCommand.get_extension`:
`os.path.splitext(self.get_file())[1].lower()`. -/
def ImageHelperCommand.get_extension (self : ImageHelperCommand) : List Char :=
  (pySplitext self.get_file).2.map Char.toLower

/-- `ImageHelperCommand.get_file_name`: `self.file_path.split("/")[-1]`. -/
def ImageHelperCommand.get_file_name (self : ImageHelperCommand) : List Char :=
  lastSlashSegment self.file_path

/-- Decimal digit characters, used to model Python's `str(i)`. -/
def digitChar : Nat → Char
  | 0 => '0'
  | 1 => '1'
  | 2 => '2'
  | 3 => '3'
  | 4 => '4'
  | 5 => '5'
  | 6 => '6'
  | 7 => '7'
  | 8 => '8'
  | _ => '9'

/-- Fuel-indexed decimal rendering; the fuel only needs to cover the digit
count, and `natChars` supplies `n + 1`, which always suffices. -/
def natCharsAux : Nat → Nat → List Char
  | 0, _ => []
  | fuel + 1, n =>
    if n < 10 then [digitChar n]
    else natCharsAux fuel (n / 10) ++ [digitChar (n % 10)]

/-- Model of Python's `str(i)` for a natural number. -/
def natChars (n : Nat) : List Char := natCharsAux (n + 1) n

/-- Numeric value of a decimal digit character, inverse of `digitChar`. -/
def charVal (c : Char) : Nat := c.toNat - 48

/-- Parse a decimal digit string back to a number; left inverse of
`natChars`, used to prove injectivity. -/
def ofChars (l : List Char) : Nat :=
  l.foldl (fun a c => 10 * a + charVal c) 0

/-- The candidate path `f"{base} ({i}){ext}"` tried by the disambiguation
loop in `_generate_output_path`. -/
def candName (base ext : List Char) (i : Nat) : List Char :=
  base ++ ' ' :: '(' :: (natChars i ++ ')' :: ext)

/-- The `while os.path.exists(output_path)` loop of
`_generate_output_path`: starting from the current candidate `cur` and
counter `i`, replace the candidate by `f"{base} ({i}){ext}"` and bump `i`
until the candidate no longer exists.  The Python loop is unbounded; here
it carries fuel, and the callers pass `fs.length + 2`, which is proven
sufficient (`scanLoop_finds_first` together with `exists_free_candidate`),
so the model agrees with the unbounded loop. -/
def scanLoop (fs : List (List Char)) (base ext : List Char) :
    List Char → Nat → Nat → List Char
  | cur, _, 0 => cur
  | cur, i, fuel + 1 =>
    if cur ∈ fs then scanLoop fs base ext (candName base ext i) (i + 1) fuel
    else cur

/-- The first candidate output path computed by `_generate_output_path`:
`os.path.join(self.get_file_directory(), f"{name}{extension}")`. -/
def ImageHelperCommand.initial_output_path (self : ImageHelperCommand)
    (name extension : List Char) : List Char :=
  pyJoin self.get_file_directory (name ++ extension)

/-- `ImageHelperCommand._generate_output_path` against the filesystem `fs`:
if the joined path already exists, split it into `(base, ext)` and scan
`f"{base} ({i}){ext}"` for `i = 1, 2, ...` until a fresh path is found. -/
def ImageHelperCommand.generate_output_path (self : ImageHelperCommand)
    (fs : List (List Char)) (name extension : List Char) : List Char :=
  if self.initial_output_path name extension ∈ fs then
    scanLoop fs (pySplitext (self.initial_output_path name extension)).1
      (pySplitext (self.initial_output_path name extension)).2
      (self.initial_output_path name extension) 1 (fs.length + 2)
  else self.initial_output_path name extension

/-- The output path computed by `ConvertToPngCommand.execute`:
`self._generate_output_path(self.get_name(), ".png")`. -/
def ConvertToPngCommand.output_path (fs : List (List Char))
    (self : ImageHelperCommand) : List Char :=
  self.generate_output_path fs self.get_name (".png".data)

/-- The argument list built by `ConvertToPngCommand.execute`:
`["magick", self.file_path, output_path]`. -/
def ConvertToPngCommand.execute (fs : List (List Char))
    (self : ImageHelperCommand) : List (List Char) :=
  ["magick".data, self.file_path, ConvertToPngCommand.output_path fs self]

/-- The output path computed by `ConvertToJpegCommand.execute`:
`self._generate_output_path(self.get_name(), ".jpg")`. -/
def ConvertToJpegCommand.output_path (fs : List (List Char))
    (self : ImageHelperCommand) : List Char :=
  self.generate_output_path fs self.get_name (".jpg".data)

/-- The argument list built by `ConvertToJpegCommand.execute`:
`["magick", self.file_path, output_path]`. -/
def ConvertToJpegCommand.execute (fs : List (List Char))
    (self : ImageHelperCommand) : List (List Char) :=
  ["magick".data, self.file_path, ConvertToJpegCommand.output_path fs self]

/-- The output path computed by `RemoveWhiteBackgroundCommand.execute`:
`self._generate_output_path(f"{self.get_name()}-no-bg", ".png")`. -/
def RemoveWhiteBackgroundCommand.output_path (fs : List (List Char))
    (self : ImageHelperCommand) : List Char :=
  self.generate_output_path fs (self.get_name ++ "-no-bg".data) (".png".data)

/-- The argument list built by `RemoveWhiteBackgroundCommand.execute`:
`["magick", self.file_path, "-fuzz", "20%", "-transparent", "white",
output_path]`. -/
def RemoveWhiteBackgroundCommand.execute (fs : List (List Char))
    (self : ImageHelperCommand) : List (List Char) :=
  ["magick".data, self.file_path, "-fuzz".data, "20%".data,
   "-transparent".data, "white".data,
   RemoveWhiteBackgroundCommand.output_path fs self]

/-- A desktop notification request: `Notify.Notification.new(title, message,
icon)`, scheduled onto the GLib main loop. -/
structure Notification where
  title : List Char
  message : List Char
  icon : List Char
deriving DecidableEq

/-- `Notifier.notify_info`: schedules an informational notification
(icon "dialog-information") on the main thread. -/
def notify_info (title message : List Char) : Notification :=
  ⟨title, message, "dialog-information".data⟩

/-- `Notifier.notify_error`: schedules an error notification
(icon "dialog-error") on the main thread. -/
def notify_error (title message : List Char) : Notification :=
  ⟨title, message, "dialog-error".data⟩

/-- A Python runtime value relevant to the `CalledProcessError` handler:
the `stderr` field of the exception is either `bytes` or `str`. -/
inductive PyVal where
  | pyBytes (b : List Char)
  | pyStr (s : List Char)
deriving DecidableEq

/-- A Python exception escaping an expression. -/
inductive PyExc where
  | attributeError (attr : List Char)
deriving DecidableEq

/-- Evaluating `v.decode(...)`: `bytes.decode` yields the text (UTF-8
decoding modelled as the identity on the character content); `str` has no
attribute `decode`, so the lookup raises `AttributeError`. -/
def pyDecode : PyVal → Except PyExc (List Char)
  | .pyBytes b => .ok b
  | .pyStr _ => .error (.attributeError ("decode".data))

/-- `str.strip()` with whitespace simplified to the space character. -/
def pyStrip (l : List Char) : List Char :=
  ((l.dropWhile (fun c => c = ' ')).reverse.dropWhile (fun c => c = ' ')).reverse

/-- The `subprocess.CalledProcessError` raised in `_runner`: we track the
fields the handler reads.  At the `raise` site the local `stderr` has
already been rebound to the decoded `str` (line 106), so the exception's
`stderr` field is a `str`, not `bytes`. -/
structure CalledProcessError where
  returncode : Int
  stderr : PyVal
deriving DecidableEq

/-- The `except subprocess.CalledProcessError as e` handler body of
`_runner`: it evaluates `e.stderr.decode("utf-8", errors="ignore").strip()`
and then formats `f"Error processing {self.input_path.name}: ..."`.  Either
step can raise: `str` has no `decode`, and `input_path` is an attribute no
code path ever sets.  On success it schedules the "ImageMagick Failed"
error notification. -/
def handlerCalledProcessError (self : ImageHelperCommand)
    (e : CalledProcessError) : Except PyExc Notification :=
  match pyDecode e.stderr with
  | .error exc => .error exc
  | .ok raw =>
    match self.input_path with
    | none => .error (.attributeError ("input_path".data))
    | some ip =>
      .ok (notify_error ("ImageMagick Failed".data)
        ("Error processing ".data ++ pyBasename ip ++ ": ".data ++ pyStrip raw))

/-- How the `subprocess.Popen` + `communicate()` call in `_runner` ends:
either the binary is absent (`FileNotFoundError` from `Popen`) or the
process ran to completion with an exit status and captured output
streams. -/
inductive LaunchResult where
  | fileNotFound
  | completed (returncode : Int) (stdout stderr : List Char)
deriving DecidableEq

/-- Observable outcome of one `_runner` invocation: the notifications it
schedules on the UI loop (all notifications go through `GLib.idle_add`),
the success callbacks it posts to the UI loop, the success callbacks it
invokes inline on the worker thread (the code never does), and the
exception, if any, escaping the routine. -/
structure RunnerOutcome (α : Type) where
  scheduledNotifications : List Notification
  scheduledCallbacks : List α
  inlineCallbacks : List α
  uncaught : Option PyExc
deriving DecidableEq

/-- Shallow embedding of `ImageHelperCommand._runner`:

* `FileNotFoundError` → one "ImageMagick Not Found" error notification;
* nonzero exit → the "ImageMagick Error" notification carrying stderr and
  stdout is scheduled, then `CalledProcessError` is raised with the decoded
  `str` in its `stderr` field and handled by `handlerCalledProcessError`;
* zero exit → the `else:` clause posts `on_success` (when provided) to the
  UI loop via `GLib.idle_add`. -/
def runner {α : Type} (self : ImageHelperCommand) (launch : LaunchResult)
    (on_success : Option α) : RunnerOutcome α :=
  match launch with
  | .fileNotFound =>
    ⟨[notify_error ("ImageMagick Not Found".data)
        ("Please install ImageMagick to use this feature.".data)],
     [], [], none⟩
  | .completed rc stdout stderr =>
    if rc ≠ 0 then
      let output := if stdout = [] then [] else stdout
      let stderrStr := if stderr = [] then [] else stderr
      let note := notify_error ("ImageMagick Error".data)
        ("Command failed with error:\n".data ++ stderrStr
          ++ "\nOutput:\n".data ++ output)
      match handlerCalledProcessError self ⟨rc, .pyStr stderrStr⟩ with
      | .error exc => ⟨[note], [], [], some exc⟩
      | .ok note2 => ⟨[note, note2], [], [], none⟩
    else
      match on_success with
      | some f => ⟨[], [f], [], none⟩
      | none => ⟨[], [], [], none⟩

/-- The error notifications among a scheduled batch (icon "dialog-error"). -/
def errorNotifications (l : List Notification) : List Notification :=
  l.filter (fun n => n.icon = "dialog-error".data)

-- ## Theorems

theorem splitSlash_ne_nil (l : List Char) : splitSlash l ≠ [] := by
  cases l with
  | nil => simp [splitSlash]
  | cons c cs =>
    simp only [splitSlash]
    cases h : splitSlash cs with
    | nil => simp
    | cons g gs =>
      by_cases hc : c = '/' <;> simp [hc]

theorem splitSlash_of_no_slash {l : List Char} (h : '/' ∉ l) :
    splitSlash l = [l] := by
  induction l with
  | nil => rfl
  | cons c cs ih =>
    have hc : c ≠ '/' := fun hc => h (hc ▸ List.mem_cons_self c cs)
    have hcs : '/' ∉ cs := fun hm => h (List.mem_cons_of_mem c hm)
    simp only [splitSlash, ih hcs]
    simp [fun hh => hc hh]

theorem splitSlash_length_ge_two {l : List Char} (h : '/' ∈ l) :
    2 ≤ (splitSlash l).length := by
  induction l with
  | nil => simp at h
  | cons c cs ih =>
    simp only [splitSlash]
    cases hs : splitSlash cs with
    | nil => exact absurd hs (splitSlash_ne_nil cs)
    | cons g gs =>
      by_cases hc : c = '/'
      · simp [hc]
      · have hcs : '/' ∈ cs := by
          rcases List.mem_cons.mp h with h1 | h2
          · exact absurd h1.symm hc
          · exact h2
        have := ih hcs
        rw [hs] at this
        simp at this ⊢
        simpa [hc] using this

theorem pyBasename_of_no_slash {l : List Char} (h : '/' ∉ l) :
    pyBasename l = l := by
  cases l with
  | nil => rfl
  | cons c cs =>
    have hc : c ≠ '/' := fun hc => h (hc ▸ List.mem_cons_self c cs)
    have hcs : '/' ∉ cs := fun hm => h (List.mem_cons_of_mem c hm)
    simp [pyBasename, hc, hcs]

/-- Claim C10: for every file path, the basename-based accessor `get_file`
and the slash-splitting accessor `get_file_name` of a Command compute the
same string. -/
theorem get_file_eq_get_file_name (self : ImageHelperCommand) :
    self.get_file = self.get_file_name := by
  show pyBasename self.file_path = lastSlashSegment self.file_path
  induction self.file_path with
  | nil => rfl
  | cons c cs ih =>
    simp only [pyBasename, lastSlashSegment, splitSlash]
    cases hs : splitSlash cs with
    | nil => exact absurd hs (splitSlash_ne_nil cs)
    | cons g gs =>
      by_cases hc : c = '/'
      · rw [if_pos (Or.inl hc)]
        rw [ih]
        simp [lastSlashSegment, hs, hc, List.getLast?_cons_cons]
      · by_cases hm : '/' ∈ cs
        · rw [if_pos (Or.inr hm)]
          have hlen := splitSlash_length_ge_two hm
          rw [hs] at hlen
          cases gs with
          | nil => simp at hlen
          | cons g' gs' =>
            rw [ih]
            simp [lastSlashSegment, hs, hc, List.getLast?_cons_cons]
        · rw [if_neg (by simp [hc, hm])]
          rw [splitSlash_of_no_slash hm] at hs
          cases hs
          simp [hc]

theorem charVal_digitChar : ∀ n, n < 10 → charVal (digitChar n) = n := by
  decide

theorem ofChars_append_digit (l : List Char) (c : Char) :
    ofChars (l ++ [c]) = 10 * ofChars l + charVal c := by
  simp [ofChars, List.foldl_append]

theorem lt_ten_pow (n : Nat) : n < 10 ^ (n + 1) := by
  induction n with
  | zero => norm_num
  | succ n ih =>
    have hp : 0 < 10 ^ (n + 1) := pow_pos (by norm_num) _
    rw [pow_succ]
    nlinarith

theorem ofChars_natCharsAux :
    ∀ fuel n, n < 10 ^ fuel → ofChars (natCharsAux fuel n) = n := by
  intro fuel
  induction fuel with
  | zero =>
    intro n hn
    simp at hn
    simp [hn, natCharsAux, ofChars]
  | succ fuel ih =>
    intro n hn
    by_cases h10 : n < 10
    · simp [natCharsAux, h10, ofChars, charVal_digitChar n h10]
    · rw [natCharsAux, if_neg h10, ofChars_append_digit]
      have hdiv : n / 10 < 10 ^ fuel := by
        rw [Nat.div_lt_iff_lt_mul (by norm_num)]
        rw [pow_succ] at hn
        exact hn
      rw [ih (n / 10) hdiv, charVal_digitChar (n % 10) (Nat.mod_lt _ (by norm_num))]
      omega

theorem ofChars_natChars (n : Nat) : ofChars (natChars n) = n :=
  ofChars_natCharsAux (n + 1) n (lt_ten_pow n)

theorem natChars_injective {m n : Nat} (h : natChars m = natChars n) : m = n := by
  have := congrArg ofChars h
  rwa [ofChars_natChars, ofChars_natChars] at this

theorem candName_inj {base ext : List Char} {i j : Nat}
    (h : candName base ext i = candName base ext j) : i = j := by
  unfold candName at h
  have h1 := List.append_cancel_left h
  simp only [List.cons.injEq, true_and] at h1
  have h2 := List.append_cancel_right h1
  exact natChars_injective h2

theorem exists_free_candidate (fs : List (List Char)) (base ext : List Char) :
    ∃ i, 1 ≤ i ∧ i ≤ fs.length + 1 ∧ candName base ext i ∉ fs := by
  by_contra hall
  push_neg at hall
  have hinj : Function.Injective (fun k => candName base ext (k + 1)) := by
    intro a b hab
    have := candName_inj hab
    omega
  have hnd : ((List.range (fs.length + 1)).map
      (fun k => candName base ext (k + 1))).Nodup :=
    (List.nodup_range _).map hinj
  have hsub : ((List.range (fs.length + 1)).map
      (fun k => candName base ext (k + 1))) ⊆ fs := by
    intro x hx
    simp only [List.mem_map, List.mem_range] at hx
    obtain ⟨k, hk, rfl⟩ := hx
    exact hall (k + 1) (by omega) (by omega)
  have hle := (hnd.subperm hsub).length_le
  simp at hle

theorem scanLoop_of_not_mem {fs : List (List Char)} {base ext cur : List Char}
    {i fuel : Nat} (h : cur ∉ fs) : scanLoop fs base ext cur i fuel = cur := by
  cases fuel <;> simp [scanLoop, h]

theorem scanLoop_finds_first {fs : List (List Char)} {base ext : List Char} :
    ∀ (fuel i : Nat) (cur : List Char), cur ∈ fs →
      (∃ k, k < fuel ∧ candName base ext (i + k) ∉ fs) →
      ∃ m, scanLoop fs base ext cur i fuel = candName base ext (i + m)
        ∧ candName base ext (i + m) ∉ fs
        ∧ ∀ l, l < m → candName base ext (i + l) ∈ fs := by
  intro fuel
  induction fuel with
  | zero =>
    intro i cur _ hex
    obtain ⟨k, hk, _⟩ := hex
    omega
  | succ fuel ih =>
    intro i cur hcur hex
    rw [scanLoop, if_pos hcur]
    by_cases hc : candName base ext i ∈ fs
    · obtain ⟨k, hk, hfree⟩ := hex
      have hk0 : k ≠ 0 := by
        rintro rfl
        rw [Nat.add_zero] at hfree
        exact hfree hc
      obtain ⟨k', rfl⟩ : ∃ k', k = k' + 1 := ⟨k - 1, by omega⟩
      have hex' : ∃ k', k' < fuel ∧ candName base ext ((i + 1) + k') ∉ fs := by
        refine ⟨k', by omega, ?_⟩
        rwa [show i + 1 + k' = i + (k' + 1) by omega]
      obtain ⟨m', e1, e2, e3⟩ := ih (i + 1) (candName base ext i) hc hex'
      refine ⟨m' + 1, ?_, ?_, ?_⟩
      · rwa [show i + (m' + 1) = i + 1 + m' by omega]
      · rwa [show i + (m' + 1) = i + 1 + m' by omega]
      · intro l hl
        cases l with
        | zero => simpa using hc
        | succ l' =>
          have := e3 l' (by omega)
          rwa [show i + (l' + 1) = i + 1 + l' by omega]
    · rw [scanLoop_of_not_mem hc]
      exact ⟨0, by simp, by simpa using hc, fun l hl => absurd hl (Nat.not_lt_zero l)⟩

/-- Claim C3: `_generate_output_path` returns the candidate unchanged when
it does not exist; when it exists, the scan appends " (i)" before the
extension for the least `i ≥ 1` whose path is free — every earlier suffix
is taken, no suffix is reused, and the result collides with no existing
file. -/
theorem generate_output_path_disambiguation (fs : List (List Char))
    (self : ImageHelperCommand) (name extension : List Char) :
    (self.initial_output_path name extension ∉ fs →
      self.generate_output_path fs name extension
        = self.initial_output_path name extension)
    ∧ (self.initial_output_path name extension ∈ fs →
      self.generate_output_path fs name extension ∉ fs
      ∧ ∃ i, 1 ≤ i
          ∧ self.generate_output_path fs name extension
              = candName (pySplitext (self.initial_output_path name extension)).1
                  (pySplitext (self.initial_output_path name extension)).2 i
          ∧ ∀ j, 1 ≤ j → j < i →
              candName (pySplitext (self.initial_output_path name extension)).1
                (pySplitext (self.initial_output_path name extension)).2 j ∈ fs) := by
  constructor
  · intro h
    simp [ImageHelperCommand.generate_output_path, h]
  · intro h
    rw [ImageHelperCommand.generate_output_path, if_pos h]
    set base := (pySplitext (self.initial_output_path name extension)).1 with hbase
    set ext := (pySplitext (self.initial_output_path name extension)).2 with hext
    obtain ⟨i₀, hi1, hi2, hfree⟩ := exists_free_candidate fs base ext
    have hex : ∃ k, k < fs.length + 2 ∧ candName base ext (1 + k) ∉ fs := by
      refine ⟨i₀ - 1, by omega, ?_⟩
      rwa [show 1 + (i₀ - 1) = i₀ by omega]
    obtain ⟨m, e1, e2, e3⟩ :=
      scanLoop_finds_first (fs.length + 2) 1 (self.initial_output_path name extension) h hex
    refine ⟨by rw [e1]; exact e2, 1 + m, by omega, e1, ?_⟩
    intro j hj1 hj2
    have := e3 (j - 1) (by omega)
    rwa [show 1 + (j - 1) = j by omega] at this

/-- Witness for C3 at a concrete input: with `photo.png` and
`photo (1).png` both existing, the path generated for `photo.JPG` → PNG
collides with no existing file (it is `photo (2).png`). -/
theorem generate_output_path_disambiguation_witness :
    (ImageHelperCommand.init ("photo.JPG".data)).generate_output_path
        ["photo.png".data, "photo (1).png".data] ("photo".data) (".png".data)
      ∉ [("photo.png".data : List Char), "photo (1).png".data] :=
  ((generate_output_path_disambiguation
      ["photo.png".data, "photo (1).png".data]
      (ImageHelperCommand.init ("photo.JPG".data))
      ("photo".data) (".png".data)).2 (by decide)).1

theorem no_slash_pyBasename : ∀ (l : List Char), '/' ∉ pyBasename l := by
  intro l
  induction l with
  | nil => simp [pyBasename]
  | cons c cs ih =>
    rw [pyBasename]
    by_cases h : c = '/' ∨ '/' ∈ cs
    · rw [if_pos h]; exact ih
    · rw [if_neg h]
      push_neg at h
      simp [h.1, h.2]
      intro hh
      exact h.1 hh.symm

theorem dirSlashPart_of_no_slash {l : List Char} (h : '/' ∉ l) :
    dirSlashPart l = [] := by
  cases l with
  | nil => rfl
  | cons c cs =>
    have hc : c ≠ '/' := fun hc => h (hc ▸ List.mem_cons_self c cs)
    have hcs : '/' ∉ cs := fun hm => h (List.mem_cons_of_mem c hm)
    simp [dirSlashPart, hc, hcs]

theorem mem_takeWhile_mem {p : Char → Bool} {c : Char} :
    ∀ {l : List Char}, c ∈ l.takeWhile p → c ∈ l := by
  intro l
  induction l with
  | nil => simp [List.takeWhile]
  | cons a l ih =>
    intro h
    rw [List.takeWhile] at h
    cases hp : p a <;> rw [hp] at h
    · simp at h
    · rcases List.mem_cons.mp h with h1 | h2
      · exact h1 ▸ List.mem_cons_self a l
      · exact List.mem_cons_of_mem a (ih h2)

theorem mem_dropWhile_mem {p : Char → Bool} {c : Char} :
    ∀ {l : List Char}, c ∈ l.dropWhile p → c ∈ l := by
  intro l
  induction l with
  | nil => simp [List.dropWhile]
  | cons a l ih =>
    intro h
    rw [List.dropWhile] at h
    cases hp : p a <;> rw [hp] at h
    · exact h
    · exact List.mem_cons_of_mem a (ih h)

theorem mem_splitLastDot_fst {c : Char} :
    ∀ {l : List Char}, c ∈ (splitLastDot l).1 → c ∈ l := by
  intro l
  induction l with
  | nil => simp [splitLastDot]
  | cons a l ih =>
    intro h
    rw [splitLastDot] at h
    by_cases hc : a = '.' ∧ '.' ∉ l
    · rw [if_pos hc] at h; simp at h
    · rw [if_neg hc] at h
      rcases List.mem_cons.mp h with h1 | h2
      · exact h1 ▸ List.mem_cons_self a l
      · exact List.mem_cons_of_mem a (ih h2)

theorem no_slash_get_name (self : ImageHelperCommand) : '/' ∉ self.get_name := by
  intro h
  rw [ImageHelperCommand.get_name, pySplitext] at h
  have hfile : '/' ∉ self.get_file := by
    rw [ImageHelperCommand.get_file]
    exact no_slash_pyBasename self.file_path
  have hbase : '/' ∉ pyBasename self.get_file := no_slash_pyBasename _
  rcases List.mem_append.mp h with h1 | h2
  · rw [dirSlashPart_of_no_slash hfile] at h1
    simp at h1
  · rw [splitextBase] at h2
    rcases List.mem_append.mp h2 with h3 | h4
    · exact hbase (mem_takeWhile_mem h3)
    · exact hbase (mem_dropWhile_mem (mem_splitLastDot_fst h4))

theorem pyBasename_append_of_last_slash :
    ∀ {l m : List Char}, l.getLast? = some '/' → '/' ∉ m →
      pyBasename (l ++ m) = m := by
  intro l
  induction l with
  | nil => intro m h _; simp at h
  | cons c cs ih =>
    intro m h hm
    cases cs with
    | nil =>
      simp at h
      subst h
      have heq : (['/'] : List Char) ++ m = '/' :: m := rfl
      rw [heq, pyBasename, if_pos (Or.inl rfl)]
      exact pyBasename_of_no_slash hm
    | cons c' cs' =>
      rw [List.getLast?_cons_cons] at h
      have hmem : '/' ∈ c' :: cs' := by
        obtain ⟨hne, hx⟩ := List.mem_getLast?_eq_getLast (l := c' :: cs') (x := '/') h
        exact hx ▸ List.getLast_mem hne
      rw [List.cons_append, pyBasename,
        if_pos (Or.inr (List.mem_append_left m hmem))]
      exact ih h hm

theorem pyBasename_pyJoin {d b : List Char} (hb : '/' ∉ b) :
    pyBasename (pyJoin d b) = b := by
  rw [pyJoin]
  have hhead : ¬ b.head? = some '/' := by
    intro hh
    cases b with
    | nil => simp at hh
    | cons x xs =>
      simp at hh
      exact hb (hh ▸ List.mem_cons_self x xs)
  rw [if_neg hhead]
  by_cases hd : d = [] ∨ d.getLast? = some '/'
  · rw [if_pos hd]
    rcases hd with rfl | hlast
    · simpa using pyBasename_of_no_slash hb
    · exact pyBasename_append_of_last_slash hlast hb
  · rw [if_neg hd]
    have : d ++ '/' :: b = (d ++ ['/']) ++ b := by simp
    rw [this]
    exact pyBasename_append_of_last_slash (by simp) hb

theorem takeWhile_dropWhile_append {p : Char → Bool} :
    ∀ {n : List Char} (r : List Char), (∃ c ∈ n, p c = false) →
      (n ++ r).takeWhile p = n.takeWhile p
      ∧ (n ++ r).dropWhile p = n.dropWhile p ++ r := by
  intro n
  induction n with
  | nil =>
    intro r h
    simp at h
  | cons a n ih =>
    intro r h
    cases hp : p a
    · simp [List.takeWhile, List.dropWhile, hp]
    · obtain ⟨c, hc, hcf⟩ := h
      have hcn : c ∈ n := by
        rcases List.mem_cons.mp hc with h1 | h2
        · rw [h1, hp] at hcf; simp at hcf
        · exact h2
      obtain ⟨ht, hd⟩ := ih r ⟨c, hcn, hcf⟩
      simp [List.takeWhile, List.dropWhile, hp, ht, hd]

theorem splitLastDot_last {m : List Char} (hm : '.' ∉ m) :
    ∀ (l : List Char), splitLastDot (l ++ '.' :: m) = (l, '.' :: m) := by
  intro l
  induction l with
  | nil =>
    rw [List.nil_append, splitLastDot, if_pos ⟨rfl, hm⟩]
  | cons c l ih =>
    rw [List.cons_append, splitLastDot,
      if_neg (by
        rintro ⟨-, habs⟩
        exact habs (List.mem_append_right l (List.mem_cons_self '.' m)))]
    rw [ih]

theorem pySplitext_name_ext {n m : List Char} (hn : '/' ∉ n)
    (hd : ∃ c ∈ n, c ≠ '.') (hm1 : '.' ∉ m) (hm2 : '/' ∉ m) :
    pySplitext (n ++ '.' :: m) = (n, '.' :: m) := by
  have hall : '/' ∉ n ++ '.' :: m := by
    intro h
    rcases List.mem_append.mp h with h1 | h2
    · exact hn h1
    · rcases List.mem_cons.mp h2 with h3 | h4
      · simp at h3
      · exact hm2 h4
  have hwit : ∃ c ∈ n, isDot c = false := by
    obtain ⟨c, hc, hne⟩ := hd
    exact ⟨c, hc, by simp [isDot, hne]⟩
  obtain ⟨ht, hdrop⟩ := takeWhile_dropWhile_append (p := isDot) ('.' :: m) hwit
  rw [pySplitext, pyBasename_of_no_slash hall, dirSlashPart_of_no_slash hall,
    splitextBase, ht, hdrop, splitLastDot_last hm1]
  simp

theorem no_slash_ext_png : '/' ∉ (".png".data : List Char) := by decide

theorem output_path_not_exist (fs : List (List Char))
    (self : ImageHelperCommand) (name extension : List Char)
    (h : self.initial_output_path name extension ∉ fs) :
    self.generate_output_path fs name extension
      = self.initial_output_path name extension := by
  simp [ImageHelperCommand.generate_output_path, h]

theorem generated_accessors (fs : List (List Char)) (self : ImageHelperCommand)
    (nm ex : List Char) (hnm : '/' ∉ nm) (hdot : ∃ c ∈ nm, c ≠ '.')
    (hex1 : '.' ∉ ex) (hex2 : '/' ∉ ex)
    (h : self.initial_output_path nm ('.' :: ex) ∉ fs) :
    (ImageHelperCommand.init (self.generate_output_path fs nm ('.' :: ex))).get_name = nm
    ∧ (ImageHelperCommand.init (self.generate_output_path fs nm ('.' :: ex))).get_extension
        = ('.' :: ex).map Char.toLower := by
  rw [output_path_not_exist fs self nm ('.' :: ex) h,
    ImageHelperCommand.initial_output_path]
  have hb : '/' ∉ nm ++ '.' :: ex := by
    intro hmem
    rcases List.mem_append.mp hmem with h1 | h2
    · exact hnm h1
    · rcases List.mem_cons.mp h2 with h3 | h4
      · simp at h3
      · exact hex2 h4
  have key : pySplitext (pyBasename (pyJoin self.get_file_directory (nm ++ '.' :: ex)))
      = (nm, '.' :: ex) := by
    rw [pyBasename_pyJoin hb]
    exact pySplitext_name_ext hnm hdot hex1 hex2
  constructor
  · simp [ImageHelperCommand.get_name, ImageHelperCommand.get_file,
      ImageHelperCommand.init, key]
  · simp [ImageHelperCommand.get_extension, ImageHelperCommand.get_file,
      ImageHelperCommand.init, key]

/-- Claim C2: for every source path, the computed output path keeps the
source's base name and carries the operation's target extension, with the
fixed "-no-bg" suffix appended before the extension for background removal
(stated for candidates that do not already exist — a colliding candidate
gets a numeric suffix, see C3); in particular `photo.JPG` → `photo.png`
under convert-to-PNG and `logo.png` → `logo-no-bg.png` under
remove-white-background. -/
theorem output_path_keeps_name_and_extension (fs : List (List Char))
    (self : ImageHelperCommand) :
    (self.initial_output_path self.get_name (".png".data) ∉ fs →
      ConvertToPngCommand.output_path fs self
        = self.initial_output_path self.get_name (".png".data)
      ∧ ((∃ c ∈ self.get_name, c ≠ '.') →
        (ImageHelperCommand.init (ConvertToPngCommand.output_path fs self)).get_name
            = self.get_name
        ∧ (ImageHelperCommand.init
            (ConvertToPngCommand.output_path fs self)).get_extension
            = ".png".data))
    ∧ (self.initial_output_path self.get_name (".jpg".data) ∉ fs →
      ConvertToJpegCommand.output_path fs self
        = self.initial_output_path self.get_name (".jpg".data)
      ∧ ((∃ c ∈ self.get_name, c ≠ '.') →
        (ImageHelperCommand.init (ConvertToJpegCommand.output_path fs self)).get_name
            = self.get_name
        ∧ (ImageHelperCommand.init
            (ConvertToJpegCommand.output_path fs self)).get_extension
            = ".jpg".data))
    ∧ (self.initial_output_path (self.get_name ++ "-no-bg".data) (".png".data) ∉ fs →
      RemoveWhiteBackgroundCommand.output_path fs self
        = self.initial_output_path (self.get_name ++ "-no-bg".data) (".png".data)
      ∧ (ImageHelperCommand.init
          (RemoveWhiteBackgroundCommand.output_path fs self)).get_name
          = self.get_name ++ "-no-bg".data
      ∧ (ImageHelperCommand.init
          (RemoveWhiteBackgroundCommand.output_path fs self)).get_extension
          = ".png".data)
    ∧ ConvertToPngCommand.output_path [] (ImageHelperCommand.init ("photo.JPG".data))
        = "photo.png".data
    ∧ RemoveWhiteBackgroundCommand.output_path []
        (ImageHelperCommand.init ("logo.png".data))
        = "logo-no-bg.png".data := by
  have hpng : (".png".data : List Char) = '.' :: "png".data := rfl
  have hjpg : (".jpg".data : List Char) = '.' :: "jpg".data := rfl
  refine ⟨fun h => ⟨output_path_not_exist fs self _ _ h, fun hdot => ?_⟩,
    fun h => ⟨output_path_not_exist fs self _ _ h, fun hdot => ?_⟩,
    fun h => ⟨output_path_not_exist fs self _ _ h, ?_⟩, by decide, by decide⟩
  · rw [ConvertToPngCommand.output_path]
    rw [hpng] at h ⊢
    have := generated_accessors fs self self.get_name ("png".data)
      (no_slash_get_name self) hdot (by decide) (by decide) h
    exact ⟨this.1, by rw [this.2]; decide⟩
  · rw [ConvertToJpegCommand.output_path]
    rw [hjpg] at h ⊢
    have := generated_accessors fs self self.get_name ("jpg".data)
      (no_slash_get_name self) hdot (by decide) (by decide) h
    exact ⟨this.1, by rw [this.2]; decide⟩
  · rw [RemoveWhiteBackgroundCommand.output_path]
    rw [hpng] at h ⊢
    have hnm : '/' ∉ self.get_name ++ "-no-bg".data := by
      intro hmem
      rcases List.mem_append.mp hmem with h1 | h2
      · exact no_slash_get_name self h1
      · revert h2; decide
    have hdot : ∃ c ∈ self.get_name ++ "-no-bg".data, c ≠ '.' :=
      ⟨'-', List.mem_append_right _ (by decide), by decide⟩
    have := generated_accessors fs self (self.get_name ++ "-no-bg".data)
      ("png".data) hnm hdot (by decide) (by decide) h
    exact ⟨this.1, by rw [this.2]; decide⟩

/-- Witness for C2 at a concrete input: for source `photo.JPG` with an
empty filesystem, the convert-to-PNG output path has the same name part as
the source and extension ".png". -/
theorem output_path_keeps_name_and_extension_witness :
    (ImageHelperCommand.init (ConvertToPngCommand.output_path []
        (ImageHelperCommand.init ("photo.JPG".data)))).get_name
      = (ImageHelperCommand.init ("photo.JPG".data)).get_name
    ∧ (ImageHelperCommand.init (ConvertToPngCommand.output_path []
        (ImageHelperCommand.init ("photo.JPG".data)))).get_extension
      = ".png".data :=
  ((output_path_keeps_name_and_extension []
      (ImageHelperCommand.init ("photo.JPG".data))).1
    (by decide)).2 (by decide)

/-- Claim C1: for every Command execution (with the success continuation
the in-repo callers always provide), exactly one terminal outcome occurs:
either the success callback is posted to the UI loop, or exactly one error
notification is scheduled — never both, never neither. -/
theorem runner_exactly_one_terminal_outcome {α : Type} (self : ImageHelperCommand)
    (launch : LaunchResult) (f : α) :
    ((runner self launch (some f)).scheduledCallbacks.length = 1
      ∧ (errorNotifications
          (runner self launch (some f)).scheduledNotifications).length = 0)
    ∨ ((runner self launch (some f)).scheduledCallbacks.length = 0
      ∧ (errorNotifications
          (runner self launch (some f)).scheduledNotifications).length = 1) := by
  cases launch with
  | fileNotFound =>
    right
    simp [runner, errorNotifications, notify_error]
  | completed rc stdout stderr =>
    by_cases h : rc = 0
    · left
      simp [runner, h, errorNotifications]
    · right
      simp [runner, h, errorNotifications, handlerCalledProcessError, pyDecode,
        notify_error]

/-- Claim C4: when the external binary exits with status zero, the provided
success continuation is posted to the UI loop exactly once, nothing is
invoked inline on the worker thread, and no notification of any kind is
scheduled. -/
theorem runner_zero_exit_schedules_success_once {α : Type}
    (self : ImageHelperCommand) (stdout stderr : List Char) (f : α) :
    runner self (.completed 0 stdout stderr) (some f)
      = ⟨[], [f], [], none⟩ := by
  simp [runner]

/-- Claim C5: when the external binary exits nonzero, exactly one error
notification is scheduled — the "ImageMagick Error" one, whose message
carries the captured stderr and stdout — and the success continuation is
neither posted nor invoked.  (The second, "ImageMagick Failed" notification
of the `CalledProcessError` handler is never reached: the handler raises
first, see C7/C8.) -/
theorem runner_nonzero_exit_single_error_notification {α : Type}
    (self : ImageHelperCommand) (rc : Int) (stdout stderr : List Char)
    (cb : Option α) (hrc : rc ≠ 0) :
    (runner self (.completed rc stdout stderr) cb).scheduledNotifications
      = [notify_error ("ImageMagick Error".data)
          ("Command failed with error:\n".data ++ stderr
            ++ "\nOutput:\n".data ++ stdout)]
    ∧ (runner self (.completed rc stdout stderr) cb).scheduledCallbacks = []
    ∧ (runner self (.completed rc stdout stderr) cb).inlineCallbacks = [] := by
  have hout : (if stdout = [] then [] else stdout) = stdout := by
    by_cases h : stdout = [] <;> simp [h]
  have herr : (if stderr = [] then ([] : List Char) else stderr) = stderr := by
    by_cases h : stderr = [] <;> simp [h]
  simp [runner, hrc, handlerCalledProcessError, pyDecode, hout, herr]

/-- Witness for C5 at a concrete input: exit status 1 with stderr "err" and
stdout "out". -/
theorem runner_nonzero_exit_single_error_notification_witness :
    (runner (ImageHelperCommand.init ("photo.JPG".data))
        (.completed 1 ("out".data) ("err".data))
        (none : Option Unit)).scheduledNotifications
      = [notify_error ("ImageMagick Error".data)
          ("Command failed with error:\n".data ++ "err".data
            ++ "\nOutput:\n".data ++ "out".data)]
    ∧ (runner (ImageHelperCommand.init ("photo.JPG".data))
        (.completed 1 ("out".data) ("err".data))
        (none : Option Unit)).scheduledCallbacks = []
    ∧ (runner (ImageHelperCommand.init ("photo.JPG".data))
        (.completed 1 ("out".data) ("err".data))
        (none : Option Unit)).inlineCallbacks = [] :=
  runner_nonzero_exit_single_error_notification
    (ImageHelperCommand.init ("photo.JPG".data)) 1 ("out".data) ("err".data)
    none (by decide)

/-- Claim C6: when launching the external binary raises
`FileNotFoundError`, exactly one error notification is scheduled, carrying
the distinguished "tool not installed" message, and the success
continuation is never posted nor invoked. -/
theorem runner_tool_missing_notification {α : Type} (self : ImageHelperCommand)
    (cb : Option α) :
    runner self .fileNotFound cb
      = ⟨[notify_error ("ImageMagick Not Found".data)
            ("Please install ImageMagick to use this feature.".data)],
         [], [], none⟩ := rfl

/-- Claim C7 is a code bug: the claim (and the spec's propagation policy)
says every failure is caught inside `_runner` and ends only in a
notification, but on any nonzero exit status the `CalledProcessError`
handler itself raises an `AttributeError` (`str` has no `decode`; had the
field been bytes, the unset `self.input_path` would raise instead, see C8),
and that exception escapes `_runner` uncaught.  This theorem evaluates the
embedded `_runner` at such a failing input. -/
theorem runner_nonzero_exit_uncaught_exception :
    (runner (ImageHelperCommand.init ("photo.JPG".data))
        (.completed 1 [] ("error".data)) (none : Option Unit)).uncaught
      = some (.attributeError ("decode".data)) := rfl

/-- Claim C8: in the tool-failure handling branch, the `CalledProcessError`
handler of a freshly constructed Command always raises a secondary error;
in particular the message formatting references `self.input_path`, an
attribute `__init__` does not set (it is `none`), so once the preceding
`e.stderr.decode` step is passed (bytes field) the `input_path` lookup
itself raises `AttributeError`. -/
theorem tool_failure_branch_secondary_error (fp : List Char) :
    (ImageHelperCommand.init fp).input_path = none
    ∧ (∀ e : CalledProcessError,
        ∃ exc, handlerCalledProcessError (ImageHelperCommand.init fp) e = .error exc)
    ∧ (∀ (rc : Int) (b : List Char),
        handlerCalledProcessError (ImageHelperCommand.init fp) ⟨rc, .pyBytes b⟩
          = .error (.attributeError ("input_path".data))) := by
  refine ⟨rfl, fun e => ?_, fun rc b => rfl⟩
  cases e with
  | mk rc sv =>
    cases sv with
    | pyBytes b => exact ⟨.attributeError ("input_path".data), rfl⟩
    | pyStr s => exact ⟨.attributeError ("decode".data), rfl⟩

/-- Claim C9: every operation invokes the external binary as a discrete
argument list of the form tool name, source path, the operation's options,
destination path — no options for the two straight conversions, and exactly
the fuzz-tolerance flag pair followed by the make-transparent flag pair for
background removal. -/
theorem execute_command_argument_lists (fs : List (List Char))
    (self : ImageHelperCommand) :
    ConvertToPngCommand.execute fs self
      = "magick".data :: self.file_path
          :: ([] ++ [ConvertToPngCommand.output_path fs self])
    ∧ ConvertToJpegCommand.execute fs self
      = "magick".data :: self.file_path
          :: ([] ++ [ConvertToJpegCommand.output_path fs self])
    ∧ RemoveWhiteBackgroundCommand.execute fs self
      = "magick".data :: self.file_path
          :: (["-fuzz".data, "20%".data, "-transparent".data, "white".data]
              ++ [RemoveWhiteBackgroundCommand.output_path fs self]) :=
  ⟨rfl, rfl, rfl⟩
